import Mathlib

/-!
Verification of the two batch image-processing scripts of this repository,
`helper scripts/convert_to_webp.py` and `helper scripts/make_thumbnails.py`,
against their natural-language specification.

The scripts are shallowly embedded: a path is its list of components
(`pathlib.Path.parts`), the filesystem is an association list from paths to
file metadata (modification time and size), and every call into the external
Pillow library is represented by a per-file environment value recording
whether the call raises and, on success, the metadata of the file it writes.
Exceptions are embedded as values: the `try/except` body of the per-file loop
becomes an explicit case split in the step function.
-/

/-- A filesystem path, as its list of components (`pathlib.Path.parts`). -/
abbrev FilePath' := List String

/-- Metadata of one regular file: `st_mtime` and `st_size` of `Path.stat()`. -/
structure FInfo where
  mtime : Int
  size : Nat
deriving DecidableEq, Repr

/-- The filesystem: an association list from paths to file metadata.  Every
entry stands for a regular file (`Path.is_file()` is true exactly for the
recorded paths); directories are implicit, so `mkdir` is a no-op. -/
abbrev FSys := List (FilePath' × FInfo)

/-- Metadata of a path, `none` when no such file exists. -/
def fsLookup : FSys → FilePath' → Option FInfo
  | [], _ => none
  | (q, i) :: fs, p => if q = p then some i else fsLookup fs p

/-- `Path.exists()` of the embedded filesystem. -/
def fsPresent (fs : FSys) (p : FilePath') : Bool :=
  (fsLookup fs p).isSome

/-- `Path.stat().st_mtime`; 0 for a missing file (never consulted there). -/
def fsMtime (fs : FSys) (p : FilePath') : Int :=
  ((fsLookup fs p).getD ⟨0, 0⟩).mtime

/-- `Path.stat().st_size`; 0 for a missing file. -/
def fsSize (fs : FSys) (p : FilePath') : Nat :=
  ((fsLookup fs p).getD ⟨0, 0⟩).size

/-- Writing a file: replace the metadata of the first entry for the path,
or append a fresh entry when the path is new. -/
def fsWrite : FSys → FilePath' → FInfo → FSys
  | [], p, x => [(p, x)]
  | (q, i) :: fs, p, x => if q = p then (p, x) :: fs else (q, i) :: fsWrite fs p x

/-- `Path.unlink()`: remove every entry for the path. -/
def fsUnlink : FSys → FilePath' → FSys
  | [], _ => []
  | (q, i) :: fs, p => if q = p then fsUnlink fs p else (q, i) :: fsUnlink fs p

/-- The paths of the filesystem in directory-walk order (`Path.rglob("*")`). -/
def fsPaths : FSys → List FilePath'
  | [] => []
  | (q, _) :: fs => q :: fsPaths fs

/-- ASCII lowering of a string, embedding Python `str.lower()` on the
ASCII names the scripts compare. -/
def strLower (s : String) : String :=
  ⟨s.data.map Char.toLower⟩

/-- The extension of a file name, as `pathlib.PurePath.suffix` computes it:
the segment from the last dot, provided that dot is neither the first nor
the last character of the name; otherwise the empty extension. -/
def nameSuffix (cs : List Char) : List Char :=
  let body := cs.reverse.takeWhile (fun ch => decide (ch ≠ '.'))
  if 0 < body.length ∧ body.length + 1 < cs.length then '.' :: body.reverse else []

/-- `pathlib.PurePath.with_suffix`: drop the old extension of the name and
append the new one. -/
def nameWithSuffix (cs suf : List Char) : List Char :=
  cs.take (cs.length - (nameSuffix cs).length) ++ suf

/-- `pathlib.PurePath.name`: the last path component. -/
def pathName (p : FilePath') : String :=
  (p.getLast?).getD ""

/-- `pathlib.PurePath.suffix` of a path. -/
def pathExt (p : FilePath') : String :=
  ⟨nameSuffix (pathName p).data⟩

/-- The error line both scripts print for a failing file; the exception text
appended after the path is elided, the offending path is retained. -/
def errLine (p : FilePath') : String :=
  "[ERROR] " ++ String.intercalate "/" p

/-- Outcome of one call into Pillow (`Image.open` .. `im.save`): either the
metadata the written destination file ends up with, or an exception; a
failing call may still have written a (possibly partial) destination. -/
inductive ConvResult where
  | ok (written : FInfo)
  | fail (leftover : Option FInfo)
deriving DecidableEq, Repr

/-- Per-file behaviour of the external world: whether the `stat` calls of the
staleness check raise, what the Pillow transform does, and whether the
`unlink` of the original raises. -/
structure FileEnv where
  statRaises : Bool
  conv : ConvResult
  unlinkRaises : Bool
deriving DecidableEq, Repr

/-- Filesystem effect of a failing transform: nothing, or a leftover
destination file. -/
def failWrite (fs : FSys) (dst : FilePath') : Option FInfo → FSys
  | none => fs
  | some i => fsWrite fs dst i

namespace ConvertToWebp

/-- `CONVERT_EXTS` of convert_to_webp.py. -/
def CONVERT_EXTS : List String :=
  [".jpg", ".jpeg", ".png", ".tif", ".tiff", ".bmp", ".gif"]

/-- `WEBP_EXTS` of convert_to_webp.py. -/
def WEBP_EXTS : List String :=
  [".webp"]

/-- `is_in_folder_named` of convert_to_webp.py: some path component equals
the folder name, compared lowercased. -/
def is_in_folder_named (p : FilePath') (folder_name : String) : Bool :=
  p.any (fun part => decide (strLower part = strLower folder_name))

/-- `is_up_to_date` of convert_to_webp.py: the destination exists and its
modification time is at least the source's. -/
def is_up_to_date (fs : FSys) (src dst : FilePath') : Bool :=
  fsPresent fs dst && decide (fsMtime fs src ≤ fsMtime fs dst)

/-- The destination `src.with_suffix(".webp")` built in the main loop. -/
def dstPath (p : FilePath') : FilePath' :=
  p.dropLast ++ [⟨nameWithSuffix (pathName p).data ".webp".data⟩]

/-- The filter chain of the main loop of convert_to_webp.py: skip-folder
check, then the `.webp` exclusion, then the convertible-extension check
(`is_file()` holds for every recorded path). -/
def pathEligible (skip_folders : List String) (p : FilePath') : Bool :=
  if skip_folders.any (fun name => is_in_folder_named p name) then false
  else
    let ext := strLower (pathExt p)
    if decide (ext ∈ WEBP_EXTS) then false
    else decide (ext ∈ CONVERT_EXTS)

/-- The candidate files the main loop of convert_to_webp.py processes, in
walk order. -/
def traversal (skip_folders : List String) (fs : FSys) : List FilePath' :=
  (fsPaths fs).filter (pathEligible skip_folders)

/-- The counter set of convert_to_webp.py's `main`. -/
structure Counts where
  converted : Nat
  skipped : Nat
  errors : Nat
  deleted : Nat
deriving DecidableEq, Repr

/-- All counters zero, as initialised by `main`. -/
def czero : Counts := ⟨0, 0, 0, 0⟩

/-- Mode-normalisation step of `convert_one` (Pillow images carry a `mode`
string and possibly a `transparency` entry in `info`; `exif_transpose`
preserves the mode and is omitted). -/
structure PILImage where
  mode : String
  transparency : Bool
deriving DecidableEq, Repr

/-- The `convert_one` mode normalisation: keep `RGB`/`RGBA`; otherwise
convert to `RGBA` when transparency info is present, else to `RGB`. -/
def convert_one_mode (im : PILImage) : PILImage :=
  if im.mode = "RGB" ∨ im.mode = "RGBA" then im
  else if im.transparency then { im with mode := "RGBA" }
  else { im with mode := "RGB" }

/-- One iteration of the `for src in root.rglob("*")` loop body of
convert_to_webp.py on an eligible file: the `try` block becomes a case
split on the per-file environment, the `except` arm increments the error
counter and logs the offending path. -/
def step (overwrite delete_originals : Bool) (oracle : FilePath' → FileEnv)
    (st : FSys × Counts × List String) (src : FilePath') :
    FSys × Counts × List String :=
  let fs := st.1
  let c := st.2.1
  let log := st.2.2
  let env := oracle src
  let dst := dstPath src
  if !overwrite && env.statRaises then
    (fs, { c with errors := c.errors + 1 }, log ++ [errLine src])
  else if !overwrite && is_up_to_date fs src dst then
    (fs, { c with skipped := c.skipped + 1 }, log)
  else
    match env.conv with
    | ConvResult.fail w =>
        (failWrite fs dst w, { c with errors := c.errors + 1 }, log ++ [errLine src])
    | ConvResult.ok written =>
        let fs1 := fsWrite fs dst written
        let c1 := { c with converted := c.converted + 1 }
        if delete_originals then
          if fsPresent fs1 dst && decide (0 < fsSize fs1 dst) then
            if env.unlinkRaises then
              (fs1, { c1 with errors := c1.errors + 1 }, log ++ [errLine src])
            else
              (fsUnlink fs1 src, { c1 with deleted := c1.deleted + 1 }, log)
          else (fs1, c1, log)
        else (fs1, c1, log)

/-- The loop of `main`, folded over a list of candidate files. -/
def runFrom (overwrite delete_originals : Bool) (oracle : FilePath' → FileEnv)
    (st : FSys × Counts × List String) (items : List FilePath') :
    FSys × Counts × List String :=
  items.foldl (step overwrite delete_originals oracle) st

/-- A whole traversal of convert_to_webp.py over a valid root. -/
def run (overwrite delete_originals : Bool) (skip_folders : List String)
    (oracle : FilePath' → FileEnv) (fs : FSys) : FSys × Counts × List String :=
  runFrom overwrite delete_originals oracle (fs, czero, []) (traversal skip_folders fs)

/-- The `--skip-folder` values argparse hands to `main`: with
`action="append"` and a list default, parsed occurrences are appended to the
default list, so the default `"thumbnails"` is always kept. -/
def argSkipFolder (user : List String) : List String :=
  "thumbnails" :: user

/-- `skip_folders = {name.lower() for name in args.skip_folder}` of `main`. -/
def skipFoldersOf (user : List String) : List String :=
  (argSkipFolder user).map strLower

/-- `main` of convert_to_webp.py: fail fast with `SystemExit` when the root
is missing or not a directory, otherwise run the loop and report. -/
def main (rootValid overwrite delete_originals : Bool) (user : List String)
    (oracle : FilePath' → FileEnv) (fs : FSys) :
    Except String (FSys × Counts × List String) :=
  if rootValid then Except.ok (run overwrite delete_originals (skipFoldersOf user) oracle fs)
  else Except.error "Folder not found"

/-- The process exit status: `SystemExit` on a string message exits 1;
otherwise `main` returns 0 on no errors and 2 when any per-file error
occurred. -/
def exitCode (r : Except String (FSys × Counts × List String)) : Nat :=
  match r with
  | Except.error _ => 1
  | Except.ok (_, c, _) => if c.errors = 0 then 0 else 2

end ConvertToWebp

namespace MakeThumbnails

/-- `IMAGE_EXTS` of make_thumbnails.py (note that it includes `.webp`). -/
def IMAGE_EXTS : List String :=
  [".jpg", ".jpeg", ".png", ".webp", ".tif", ".tiff", ".bmp", ".gif"]

/-- `THUMB_DIR_NAME` of make_thumbnails.py. -/
def THUMB_DIR_NAME : String := "thumbnails"

/-- The extension test of `is_image` of make_thumbnails.py (`is_file()` is
true for every recorded path, so only the suffix test remains). -/
def is_image (p : FilePath') : Bool :=
  decide (strLower (pathExt p) ∈ IMAGE_EXTS)

/-- `is_up_to_date` of make_thumbnails.py: the destination exists and its
modification time is at least the source's. -/
def is_up_to_date (fs : FSys) (src dst : FilePath') : Bool :=
  fsPresent fs dst && decide (fsMtime fs src ≤ fsMtime fs dst)

/-- `(src.parent / THUMB_DIR_NAME / src.name).with_suffix(".webp")` built in
the main loop. -/
def thumbPath (p : FilePath') : FilePath' :=
  p.dropLast ++ [THUMB_DIR_NAME, ⟨nameWithSuffix (pathName p).data ".webp".data⟩]

/-- The filter chain of the main loop of make_thumbnails.py: `is_image`,
then the literal (case-sensitive) `THUMB_DIR_NAME in src.parts` exclusion. -/
def pathEligible (p : FilePath') : Bool :=
  if !is_image p then false
  else if decide (THUMB_DIR_NAME ∈ p) then false
  else true

/-- The candidate files the main loop of make_thumbnails.py processes, in
walk order. -/
def traversal (fs : FSys) : List FilePath' :=
  (fsPaths fs).filter pathEligible

/-- The counter set of make_thumbnails.py's `main`
(`created = skipped = errors = 0`). -/
structure Counts where
  created : Nat
  skipped : Nat
  errors : Nat
deriving DecidableEq, Repr

/-- All counters zero, as initialised by `main`. -/
def czero : Counts := ⟨0, 0, 0⟩

/-- Pillow image as seen by `make_thumbnail`: its mode string and whether
`info` carries a `transparency` entry. -/
structure PILImage where
  mode : String
  transparency : Bool
deriving DecidableEq, Repr

/-- The `make_thumbnail` mode normalisation: keep `RGB`/`RGBA`, convert
every other mode to `RGB` unconditionally. -/
def make_thumbnail_mode (im : PILImage) : PILImage :=
  if im.mode = "RGB" ∨ im.mode = "RGBA" then im
  else { im with mode := "RGB" }

/-- One iteration of the `for src in root.rglob("*")` loop body of
make_thumbnails.py on an eligible file. -/
def step (overwrite : Bool) (oracle : FilePath' → FileEnv)
    (st : FSys × Counts × List String) (src : FilePath') :
    FSys × Counts × List String :=
  let fs := st.1
  let c := st.2.1
  let log := st.2.2
  let env := oracle src
  let dst := thumbPath src
  if !overwrite && env.statRaises then
    (fs, { c with errors := c.errors + 1 }, log ++ [errLine src])
  else if !overwrite && is_up_to_date fs src dst then
    (fs, { c with skipped := c.skipped + 1 }, log)
  else
    match env.conv with
    | ConvResult.fail w =>
        (failWrite fs dst w, { c with errors := c.errors + 1 }, log ++ [errLine src])
    | ConvResult.ok written =>
        (fsWrite fs dst written, { c with created := c.created + 1 }, log)

/-- The loop of `main`, folded over a list of candidate files. -/
def runFrom (overwrite : Bool) (oracle : FilePath' → FileEnv)
    (st : FSys × Counts × List String) (items : List FilePath') :
    FSys × Counts × List String :=
  items.foldl (step overwrite oracle) st

/-- A whole traversal of make_thumbnails.py over a valid root. -/
def run (overwrite : Bool) (oracle : FilePath' → FileEnv) (fs : FSys) :
    FSys × Counts × List String :=
  runFrom overwrite oracle (fs, czero, []) (traversal fs)

/-- `main` of make_thumbnails.py: fail fast with `SystemExit` when the root
is missing or not a directory, otherwise run the loop and report. -/
def main (rootValid overwrite : Bool) (oracle : FilePath' → FileEnv)
    (fs : FSys) : Except String (FSys × Counts × List String) :=
  if rootValid then Except.ok (run overwrite oracle fs)
  else Except.error "Folder not found"

/-- The process exit status of make_thumbnails.py. -/
def exitCode (r : Except String (FSys × Counts × List String)) : Nat :=
  match r with
  | Except.error _ => 1
  | Except.ok (_, c, _) => if c.errors = 0 then 0 else 2

end MakeThumbnails

/-- Modelled from the spec: the colour normalisation the specification
describes for both transforms, "images with an alpha channel or palette
transparency become four-channel color, otherwise three-channel color".
Pillow modes carrying an alpha channel are `RGBA`, `LA`, `PA`, `RGBa`, `La`. -/
def specNormalizedMode (mode : String) (transparency : Bool) : String :=
  if mode ∈ ["RGBA", "LA", "PA", "RGBa", "La"] ∨ transparency then "RGBA" else "RGB"

/-- Whether processing one candidate file of convert_to_webp.py hits the
`except` arm: the staleness check raises, the transform raises, or the
delete step raises after a verified non-empty output. -/
def ConvertToWebp.raises (overwrite delete_originals : Bool)
    (oracle : FilePath' → FileEnv) (fs : FSys) (src : FilePath') : Bool :=
  let env := oracle src
  let dst := ConvertToWebp.dstPath src
  if !overwrite && env.statRaises then true
  else if !overwrite && ConvertToWebp.is_up_to_date fs src dst then false
  else
    match env.conv with
    | ConvResult.fail _ => true
    | ConvResult.ok written =>
        delete_originals
          && (fsPresent (fsWrite fs dst written) dst
              && decide (0 < fsSize (fsWrite fs dst written) dst))
          && env.unlinkRaises

/-- Whether processing one candidate file of make_thumbnails.py hits the
`except` arm: the staleness check raises or the transform raises. -/
def MakeThumbnails.raises (overwrite : Bool) (oracle : FilePath' → FileEnv)
    (fs : FSys) (src : FilePath') : Bool :=
  let env := oracle src
  let dst := MakeThumbnails.thumbPath src
  if !overwrite && env.statRaises then true
  else if !overwrite && MakeThumbnails.is_up_to_date fs src dst then false
  else
    match env.conv with
    | ConvResult.fail _ => true
    | ConvResult.ok _ => false

/-- Whether processing one candidate file of convert_to_webp.py reaches the
`src.unlink()` call and completes it: the file was not skipped, the transform
succeeded, `--delete-originals` is set, the freshly written destination
exists with positive size, and the unlink itself does not raise. -/
def ConvertToWebp.deletes (overwrite delete_originals : Bool)
    (oracle : FilePath' → FileEnv) (fs : FSys) (src : FilePath') : Bool :=
  let env := oracle src
  let dst := ConvertToWebp.dstPath src
  if !overwrite && env.statRaises then false
  else if !overwrite && ConvertToWebp.is_up_to_date fs src dst then false
  else
    match env.conv with
    | ConvResult.fail _ => false
    | ConvResult.ok written =>
        delete_originals
          && (fsPresent (fsWrite fs dst written) dst
              && decide (0 < fsSize (fsWrite fs dst written) dst))
          && !env.unlinkRaises

/-- How a filesystem evolves across an error-free stretch of the
convert_to_webp.py loop: every path either kept its entry, or is a written
destination (never an eligible candidate, timestamped at or after `T`), or
is an eligible candidate from the processed list whose original was
deleted. -/
def ConvertToWebp.evolved (skip_folders : List String) (T : Int)
    (fs fs' : FSys) (l : List FilePath') : Prop :=
  ∀ q, fsLookup fs' q = fsLookup fs q
    ∨ (ConvertToWebp.pathEligible skip_folders q = false
        ∧ fsPresent fs' q = true ∧ T ≤ fsMtime fs' q)
    ∨ (ConvertToWebp.pathEligible skip_folders q = true
        ∧ fsPresent fs' q = false ∧ q ∈ l)

/-- How a filesystem evolves across an error-free stretch of the
make_thumbnails.py loop: every path either kept its entry or is a written
thumbnail (never an eligible candidate, timestamped at or after `T`). -/
def MakeThumbnails.evolved (T : Int) (fs fs' : FSys) : Prop :=
  ∀ q, fsLookup fs' q = fsLookup fs q
    ∨ (MakeThumbnails.pathEligible q = false
        ∧ fsPresent fs' q = true ∧ T ≤ fsMtime fs' q)

theorem fsLookup_write_self (fs : FSys) (p : FilePath') (x : FInfo) :
    fsLookup (fsWrite fs p x) p = some x := by
  induction fs with
  | nil => simp [fsWrite, fsLookup]
  | cons e fs ih =>
    obtain ⟨q, i⟩ := e
    by_cases h : q = p
    · simp [fsWrite, fsLookup, h]
    · simp [fsWrite, fsLookup, h, ih]

theorem fsLookup_write_ne (fs : FSys) (p q : FilePath') (x : FInfo) (h : q ≠ p) :
    fsLookup (fsWrite fs p x) q = fsLookup fs q := by
  have hpq : p ≠ q := Ne.symm h
  induction fs with
  | nil => simp [fsWrite, fsLookup, hpq]
  | cons e fs ih =>
    obtain ⟨r, i⟩ := e
    by_cases hr : r = p
    · subst hr
      simp [fsWrite, fsLookup, hpq]
    · by_cases hq : r = q
      · subst hq
        simp [fsWrite, fsLookup, hr]
      · simp [fsWrite, fsLookup, hr, hq, ih]

theorem fsLookup_unlink_self (fs : FSys) (p : FilePath') :
    fsLookup (fsUnlink fs p) p = none := by
  induction fs with
  | nil => simp [fsUnlink, fsLookup]
  | cons e fs ih =>
    obtain ⟨q, i⟩ := e
    by_cases h : q = p
    · simpa [fsUnlink, h] using ih
    · simpa [fsUnlink, fsLookup, h] using ih

theorem fsLookup_unlink_ne (fs : FSys) (p q : FilePath') (h : q ≠ p) :
    fsLookup (fsUnlink fs p) q = fsLookup fs q := by
  have hpq : p ≠ q := Ne.symm h
  induction fs with
  | nil => simp [fsUnlink, fsLookup]
  | cons e fs ih =>
    obtain ⟨r, i⟩ := e
    by_cases hr : r = p
    · subst hr
      simpa [fsUnlink, fsLookup, hpq] using ih
    · by_cases hq : r = q
      · subst hq
        simp [fsUnlink, fsLookup, hr]
      · simpa [fsUnlink, fsLookup, hr, hq] using ih

theorem fsPresent_iff_mem_paths (fs : FSys) (p : FilePath') :
    fsPresent fs p = true ↔ p ∈ fsPaths fs := by
  induction fs with
  | nil => simp [fsPresent, fsLookup, fsPaths]
  | cons e fs ih =>
    obtain ⟨q, i⟩ := e
    by_cases h : q = p
    · subst h
      simp [fsPresent, fsLookup, fsPaths]
    · have h' : p ≠ q := Ne.symm h
      have hL : fsPresent ((q, i) :: fs) p = fsPresent fs p := by
        simp [fsPresent, fsLookup, h]
      rw [hL, ih]
      simp [fsPaths, h']


theorem nameSuffix_append_webp (stem : List Char) :
    nameSuffix (stem ++ ".webp".data) = if stem = [] then [] else ".webp".data := by
  have hd : ".webp".data = ['.', 'w', 'e', 'b', 'p'] := by decide
  rw [hd]
  unfold nameSuffix
  simp only [List.reverse_append, List.reverse_cons, List.reverse_nil, List.nil_append,
    List.cons_append, List.takeWhile_cons]
  norm_num
  rcases stem with _ | ⟨a, t⟩
  · simp
  · simp [List.length_append]

theorem pathName_dstPath (p : FilePath') :
    pathName (ConvertToWebp.dstPath p)
      = ⟨nameWithSuffix (pathName p).data ".webp".data⟩ := by
  simp [pathName, ConvertToWebp.dstPath, List.getLast?_concat]

theorem pathExt_dstPath (p : FilePath') :
    pathExt (ConvertToWebp.dstPath p) = ".webp" ∨ pathExt (ConvertToWebp.dstPath p) = "" := by
  have hn := pathName_dstPath p
  unfold pathExt
  rw [hn]
  show ⟨nameSuffix (nameWithSuffix (pathName p).data ".webp".data)⟩ = (".webp" : String) ∨ _
  unfold nameWithSuffix
  rw [nameSuffix_append_webp]
  by_cases h : (pathName p).data.take ((pathName p).data.length - (nameSuffix (pathName p).data).length) = []
  · right
    rw [if_pos h]
  · left
    rw [if_neg h]

theorem dstPath_not_eligible (skip_folders : List String) (p : FilePath') :
    ConvertToWebp.pathEligible skip_folders (ConvertToWebp.dstPath p) = false := by
  unfold ConvertToWebp.pathEligible
  by_cases hs : skip_folders.any (fun name => ConvertToWebp.is_in_folder_named (ConvertToWebp.dstPath p) name)
  · rw [if_pos hs]
  · rw [if_neg hs]
    rcases pathExt_dstPath p with h | h
    · rw [h]
      have : strLower ".webp" = ".webp" := by decide
      rw [this]
      simp [ConvertToWebp.WEBP_EXTS]
    · rw [h]
      have : strLower "" = "" := by decide
      rw [this]
      simp [ConvertToWebp.WEBP_EXTS, ConvertToWebp.CONVERT_EXTS]

theorem thumb_mem_thumbPath (p : FilePath') :
    MakeThumbnails.THUMB_DIR_NAME ∈ MakeThumbnails.thumbPath p := by
  unfold MakeThumbnails.thumbPath
  simp

theorem thumbPath_not_eligible (p : FilePath') :
    MakeThumbnails.pathEligible (MakeThumbnails.thumbPath p) = false := by
  unfold MakeThumbnails.pathEligible
  by_cases hi : MakeThumbnails.is_image (MakeThumbnails.thumbPath p)
  · simp [hi, thumb_mem_thumbPath p]
  · simp [hi]

theorem ConvertToWebp.cw_step_errors (ow del : Bool) (oracle : FilePath' → FileEnv)
    (fs : FSys) (c : ConvertToWebp.Counts) (log : List String) (src : FilePath') :
    ((ConvertToWebp.step ow del oracle (fs, c, log) src).2.1).errors
      = c.errors + (if ConvertToWebp.raises ow del oracle fs src then 1 else 0) := by
  rcases hc : (oracle src).conv with written | w
  · simp only [ConvertToWebp.step, ConvertToWebp.raises, hc]
    split_ifs <;> simp_all
  · simp only [ConvertToWebp.step, ConvertToWebp.raises, hc]
    split_ifs <;> simp_all

theorem ConvertToWebp.cw_step_log (ow del : Bool) (oracle : FilePath' → FileEnv)
    (fs : FSys) (c : ConvertToWebp.Counts) (log : List String) (src : FilePath') :
    ((ConvertToWebp.step ow del oracle (fs, c, log) src).2.2)
      = log ++ (if ConvertToWebp.raises ow del oracle fs src then [errLine src] else []) := by
  rcases hc : (oracle src).conv with written | w
  · simp only [ConvertToWebp.step, ConvertToWebp.raises, hc]
    split_ifs <;> simp_all
  · simp only [ConvertToWebp.step, ConvertToWebp.raises, hc]
    split_ifs <;> simp_all

theorem MakeThumbnails.mt_step_errors (ow : Bool) (oracle : FilePath' → FileEnv)
    (fs : FSys) (c : MakeThumbnails.Counts) (log : List String) (src : FilePath') :
    ((MakeThumbnails.step ow oracle (fs, c, log) src).2.1).errors
      = c.errors + (if MakeThumbnails.raises ow oracle fs src then 1 else 0) := by
  rcases hc : (oracle src).conv with written | w
  · simp only [MakeThumbnails.step, MakeThumbnails.raises, hc]
    split_ifs <;> simp_all
  · simp only [MakeThumbnails.step, MakeThumbnails.raises, hc]
    split_ifs <;> simp_all

theorem MakeThumbnails.mt_step_log (ow : Bool) (oracle : FilePath' → FileEnv)
    (fs : FSys) (c : MakeThumbnails.Counts) (log : List String) (src : FilePath') :
    ((MakeThumbnails.step ow oracle (fs, c, log) src).2.2)
      = log ++ (if MakeThumbnails.raises ow oracle fs src then [errLine src] else []) := by
  rcases hc : (oracle src).conv with written | w
  · simp only [MakeThumbnails.step, MakeThumbnails.raises, hc]
    split_ifs <;> simp_all
  · simp only [MakeThumbnails.step, MakeThumbnails.raises, hc]
    split_ifs <;> simp_all

theorem ConvertToWebp.cw_step_fs_cases (del : Bool) (oracle : FilePath' → FileEnv)
    (fs : FSys) (c : ConvertToWebp.Counts) (log : List String) (src : FilePath')
    (h : ConvertToWebp.raises false del oracle fs src = false) :
    (ConvertToWebp.is_up_to_date fs src (ConvertToWebp.dstPath src) = true
       ∧ (ConvertToWebp.step false del oracle (fs, c, log) src).1 = fs)
    ∨ (∃ i, (oracle src).conv = ConvResult.ok i
        ∧ ((ConvertToWebp.step false del oracle (fs, c, log) src).1
              = fsWrite fs (ConvertToWebp.dstPath src) i
           ∨ (ConvertToWebp.step false del oracle (fs, c, log) src).1
              = fsUnlink (fsWrite fs (ConvertToWebp.dstPath src) i) src)) := by
  have hstat : (oracle src).statRaises = false := by
    rcases hb : (oracle src).statRaises
    · rfl
    · exfalso
      simp only [ConvertToWebp.raises] at h
      simp [hb] at h
  by_cases hu : ConvertToWebp.is_up_to_date fs src (ConvertToWebp.dstPath src) = true
  · left
    refine ⟨hu, ?_⟩
    simp only [ConvertToWebp.step]
    simp [hstat, hu]
  · rw [Bool.not_eq_true] at hu
    right
    rcases hc : (oracle src).conv with i | w
    · refine ⟨i, rfl, ?_⟩
      by_cases hdel : del = true
      · by_cases hchk : (fsPresent (fsWrite fs (ConvertToWebp.dstPath src) i) (ConvertToWebp.dstPath src) && decide (0 < fsSize (fsWrite fs (ConvertToWebp.dstPath src) i) (ConvertToWebp.dstPath src))) = true
        · have hun : (oracle src).unlinkRaises = false := by
            simp only [ConvertToWebp.raises, hc] at h
            simpa [hstat, hu, hdel, hchk] using h
          right
          simp only [ConvertToWebp.step, hc]
          simp [hstat, hu, hdel, hchk, hun]
        · rw [Bool.not_eq_true] at hchk
          left
          simp only [ConvertToWebp.step, hc]
          simp [hstat, hu, hdel, hchk]
      · rw [Bool.not_eq_true] at hdel
        left
        simp only [ConvertToWebp.step, hc]
        simp [hstat, hu, hdel]
    · exfalso
      simp only [ConvertToWebp.raises, hc] at h
      simp [hstat, hu] at h

theorem MakeThumbnails.mt_step_fs_cases (oracle : FilePath' → FileEnv)
    (fs : FSys) (c : MakeThumbnails.Counts) (log : List String) (src : FilePath')
    (h : MakeThumbnails.raises false oracle fs src = false) :
    (MakeThumbnails.is_up_to_date fs src (MakeThumbnails.thumbPath src) = true
       ∧ (MakeThumbnails.step false oracle (fs, c, log) src).1 = fs)
    ∨ (∃ i, (oracle src).conv = ConvResult.ok i
        ∧ (MakeThumbnails.step false oracle (fs, c, log) src).1
            = fsWrite fs (MakeThumbnails.thumbPath src) i) := by
  have hstat : (oracle src).statRaises = false := by
    rcases hb : (oracle src).statRaises
    · rfl
    · exfalso
      simp only [MakeThumbnails.raises] at h
      simp [hb] at h
  by_cases hu : MakeThumbnails.is_up_to_date fs src (MakeThumbnails.thumbPath src) = true
  · left
    refine ⟨hu, ?_⟩
    simp only [MakeThumbnails.step]
    simp [hstat, hu]
  · rw [Bool.not_eq_true] at hu
    right
    rcases hc : (oracle src).conv with i | w
    · refine ⟨i, rfl, ?_⟩
      simp only [MakeThumbnails.step, hc]
      simp [hstat, hu]
    · exfalso
      simp only [MakeThumbnails.raises, hc] at h
      simp [hstat, hu] at h

theorem fsPresent_congr (fs fs' : FSys) (q : FilePath')
    (h : fsLookup fs' q = fsLookup fs q) : fsPresent fs' q = fsPresent fs q := by
  unfold fsPresent
  rw [h]

theorem fsMtime_congr (fs fs' : FSys) (q : FilePath')
    (h : fsLookup fs' q = fsLookup fs q) : fsMtime fs' q = fsMtime fs q := by
  unfold fsMtime
  rw [h]

theorem ConvertToWebp.cw_src_ne_dst (skip_folders : List String) (src : FilePath')
    (Helig : ConvertToWebp.pathEligible skip_folders src = true) :
    src ≠ ConvertToWebp.dstPath src := by
  intro he
  have hd := dstPath_not_eligible skip_folders src
  rw [← he, Helig] at hd
  exact absurd hd (by decide)

theorem ConvertToWebp.cw_evolved_id (skip_folders : List String) (T : Int)
    (fs : FSys) (l : List FilePath') : ConvertToWebp.evolved skip_folders T fs fs l :=
  fun _ => Or.inl rfl

theorem ConvertToWebp.cw_evolved_trans (skip_folders : List String) (T : Int)
    (fs fs1 fs2 : FSys) (p0 : FilePath') (l : List FilePath')
    (h1 : ConvertToWebp.evolved skip_folders T fs fs1 [p0])
    (h2 : ConvertToWebp.evolved skip_folders T fs1 fs2 l) :
    ConvertToWebp.evolved skip_folders T fs fs2 (p0 :: l) := by
  intro q
  rcases h2 q with h | h | h
  · rcases h1 q with g | g | g
    · left
      rw [h, g]
    · right
      left
      exact ⟨g.1, by rw [fsPresent_congr fs1 fs2 q h]; exact g.2.1,
        by rw [fsMtime_congr fs1 fs2 q h]; exact g.2.2⟩
    · right
      right
      refine ⟨g.1, by rw [fsPresent_congr fs1 fs2 q h]; exact g.2.1, ?_⟩
      have hq : q = p0 := by simpa using g.2.2
      subst hq
      exact List.mem_cons_self q l
  · right
    left
    exact h
  · right
    right
    exact ⟨h.1, h.2.1, List.mem_cons_of_mem p0 h.2.2⟩

theorem ConvertToWebp.cw_step_evolved (del : Bool) (oracle : FilePath' → FileEnv)
    (skip_folders : List String) (T : Int) (fs : FSys) (c : ConvertToWebp.Counts)
    (log : List String) (src : FilePath')
    (Helig : ConvertToWebp.pathEligible skip_folders src = true)
    (Hor : ∀ p i, (oracle p).conv = ConvResult.ok i → T ≤ i.mtime)
    (h : ConvertToWebp.raises false del oracle fs src = false) :
    ConvertToWebp.evolved skip_folders T fs
      (ConvertToWebp.step false del oracle (fs, c, log) src).1 [src] := by
  rcases ConvertToWebp.cw_step_fs_cases del oracle fs c log src h with ⟨hu, hfs⟩ | ⟨i, hc, hcase⟩
  · rw [hfs]
    exact ConvertToWebp.cw_evolved_id skip_folders T fs [src]
  · have hTi : T ≤ i.mtime := Hor src i hc
    have hsd := ConvertToWebp.cw_src_ne_dst skip_folders src Helig
    rcases hcase with hfs | hfs <;> rw [hfs] <;> intro q
    · by_cases hq : q = ConvertToWebp.dstPath src
      · subst hq
        right
        left
        refine ⟨dstPath_not_eligible skip_folders src, ?_, ?_⟩
        · unfold fsPresent
          rw [fsLookup_write_self]
          rfl
        · unfold fsMtime
          rw [fsLookup_write_self]
          exact hTi
      · left
        exact fsLookup_write_ne fs (ConvertToWebp.dstPath src) q i hq
    · by_cases hq : q = src
      · subst hq
        right
        right
        refine ⟨Helig, ?_, by simp⟩
        unfold fsPresent
        rw [fsLookup_unlink_self]
        rfl
      · by_cases hq2 : q = ConvertToWebp.dstPath src
        · subst hq2
          right
          left
          refine ⟨dstPath_not_eligible skip_folders src, ?_, ?_⟩
          · unfold fsPresent
            rw [fsLookup_unlink_ne _ _ _ (Ne.symm hsd), fsLookup_write_self]
            rfl
          · unfold fsMtime
            rw [fsLookup_unlink_ne _ _ _ (Ne.symm hsd), fsLookup_write_self]
            exact hTi
        · left
          rw [fsLookup_unlink_ne _ _ _ hq, fsLookup_write_ne fs (ConvertToWebp.dstPath src) q i hq2]

theorem ConvertToWebp.cw_utd_preserved (skip_folders : List String) (T : Int)
    (fs fs' : FSys) (l : List FilePath') (p : FilePath')
    (Helig : ConvertToWebp.pathEligible skip_folders p = true)
    (HmT : fsMtime fs p ≤ T)
    (Hutd : ConvertToWebp.is_up_to_date fs p (ConvertToWebp.dstPath p) = true)
    (Hev : ConvertToWebp.evolved skip_folders T fs fs' l)
    (Hpres : fsPresent fs' p = true) :
    ConvertToWebp.is_up_to_date fs' p (ConvertToWebp.dstPath p) = true := by
  have hp : fsLookup fs' p = fsLookup fs p := by
    rcases Hev p with h | h | h
    · exact h
    · rw [Helig] at h
      exact absurd h.1 (by decide)
    · rw [Hpres] at h
      exact absurd h.2.1 (by decide)
  have hmp : fsMtime fs' p = fsMtime fs p := fsMtime_congr fs fs' p hp
  rcases Hev (ConvertToWebp.dstPath p) with h | h | h
  · unfold ConvertToWebp.is_up_to_date at Hutd ⊢
    rw [fsPresent_congr fs fs' _ h, fsMtime_congr fs fs' _ h, hmp]
    exact Hutd
  · unfold ConvertToWebp.is_up_to_date
    rw [h.2.1, hmp]
    have hle : fsMtime fs p ≤ fsMtime fs' (ConvertToWebp.dstPath p) := le_trans HmT h.2.2
    simpa using hle
  · exfalso
    have hd := dstPath_not_eligible skip_folders p
    rw [h.1] at hd
    exact absurd hd (by decide)

theorem ConvertToWebp.cw_step_utd (del : Bool) (oracle : FilePath' → FileEnv)
    (skip_folders : List String) (T : Int) (fs : FSys) (c : ConvertToWebp.Counts)
    (log : List String) (src : FilePath')
    (Helig : ConvertToWebp.pathEligible skip_folders src = true)
    (Hor : ∀ p i, (oracle p).conv = ConvResult.ok i → T ≤ i.mtime)
    (HmT : fsMtime fs src ≤ T)
    (h : ConvertToWebp.raises false del oracle fs src = false)
    (Hpres : fsPresent (ConvertToWebp.step false del oracle (fs, c, log) src).1 src = true) :
    ConvertToWebp.is_up_to_date (ConvertToWebp.step false del oracle (fs, c, log) src).1
      src (ConvertToWebp.dstPath src) = true := by
  rcases ConvertToWebp.cw_step_fs_cases del oracle fs c log src h with ⟨hu, hfs⟩ | ⟨i, hc, hcase⟩
  · rw [hfs]
    exact hu
  · have hsd := ConvertToWebp.cw_src_ne_dst skip_folders src Helig
    have hTi : T ≤ i.mtime := Hor src i hc
    rcases hcase with hfs | hfs
    · rw [hfs]
      unfold ConvertToWebp.is_up_to_date
      have h1 : fsPresent (fsWrite fs (ConvertToWebp.dstPath src) i) (ConvertToWebp.dstPath src) = true := by
        unfold fsPresent
        rw [fsLookup_write_self]
        rfl
      have h2 : fsMtime (fsWrite fs (ConvertToWebp.dstPath src) i) (ConvertToWebp.dstPath src) = i.mtime := by
        unfold fsMtime
        rw [fsLookup_write_self]
        rfl
      have h3 : fsMtime (fsWrite fs (ConvertToWebp.dstPath src) i) src = fsMtime fs src := by
        unfold fsMtime
        rw [fsLookup_write_ne fs (ConvertToWebp.dstPath src) src i hsd]
      rw [h1, h2, h3]
      have hle : fsMtime fs src ≤ i.mtime := le_trans HmT hTi
      simpa using hle
    · exfalso
      rw [hfs] at Hpres
      unfold fsPresent at Hpres
      rw [fsLookup_unlink_self] at Hpres
      exact absurd Hpres (by decide)

theorem ConvertToWebp.cw_runFrom_cons (ow del : Bool) (oracle : FilePath' → FileEnv)
    (st : FSys × ConvertToWebp.Counts × List String) (p : FilePath') (l : List FilePath') :
    ConvertToWebp.runFrom ow del oracle st (p :: l)
      = ConvertToWebp.runFrom ow del oracle (ConvertToWebp.step ow del oracle st p) l := rfl

theorem ConvertToWebp.cw_runFrom_errors_mono (ow del : Bool) (oracle : FilePath' → FileEnv)
    (l : List FilePath') :
    ∀ st : FSys × ConvertToWebp.Counts × List String,
      st.2.1.errors ≤ (ConvertToWebp.runFrom ow del oracle st l).2.1.errors := by
  induction l with
  | nil => intro st; exact Nat.le_refl _
  | cons p l ih =>
    intro st
    obtain ⟨fs, c, log⟩ := st
    rw [ConvertToWebp.cw_runFrom_cons]
    refine le_trans ?_ (ih _)
    rw [ConvertToWebp.cw_step_errors]
    exact Nat.le_add_right _ _

theorem ConvertToWebp.cw_run1_inv (del : Bool) (oracle : FilePath' → FileEnv)
    (skip_folders : List String) (T : Int)
    (Hor : ∀ p i, (oracle p).conv = ConvResult.ok i → T ≤ i.mtime) :
    ∀ (l : List FilePath') (fs : FSys) (c : ConvertToWebp.Counts) (log : List String),
      l.Nodup →
      (∀ p ∈ l, ConvertToWebp.pathEligible skip_folders p = true
         ∧ fsPresent fs p = true ∧ fsMtime fs p ≤ T) →
      (ConvertToWebp.runFrom false del oracle (fs, c, log) l).2.1.errors = c.errors →
      ConvertToWebp.evolved skip_folders T fs
          (ConvertToWebp.runFrom false del oracle (fs, c, log) l).1 l
      ∧ (∀ p ∈ l,
          fsPresent (ConvertToWebp.runFrom false del oracle (fs, c, log) l).1 p = true →
          ConvertToWebp.is_up_to_date (ConvertToWebp.runFrom false del oracle (fs, c, log) l).1
            p (ConvertToWebp.dstPath p) = true) := by
  intro l
  induction l with
  | nil =>
    intro fs c log _ _ _
    exact ⟨ConvertToWebp.cw_evolved_id skip_folders T fs [],
      fun p hp => absurd hp (List.not_mem_nil p)⟩
  | cons p0 t ih =>
    intro fs c log hnd hl herr
    have hstep_err := ConvertToWebp.cw_step_errors false del oracle fs c log p0
    have hp0 := hl p0 (List.mem_cons_self p0 t)
    rcases hst : ConvertToWebp.step false del oracle (fs, c, log) p0 with ⟨fs1, c1, log1⟩
    rw [ConvertToWebp.cw_runFrom_cons, hst] at herr ⊢
    rw [hst] at hstep_err
    have hmono := ConvertToWebp.cw_runFrom_errors_mono false del oracle t (fs1, c1, log1)
    have hmono2 : c1.errors ≤ (ConvertToWebp.runFrom false del oracle (fs1, c1, log1) t).2.1.errors := hmono
    have hstep_err2 : c1.errors = c.errors + (if ConvertToWebp.raises false del oracle fs p0 then 1 else 0) := hstep_err
    have hraise : ConvertToWebp.raises false del oracle fs p0 = false := by
      by_contra hr
      rw [Bool.not_eq_false] at hr
      rw [hr] at hstep_err2
      simp at hstep_err2
      omega
    have hc1 : c1.errors = c.errors := by
      rw [hraise] at hstep_err2
      simpa using hstep_err2
    have hev1 : ConvertToWebp.evolved skip_folders T fs fs1 [p0] := by
      have := ConvertToWebp.cw_step_evolved del oracle skip_folders T fs c log p0 hp0.1 Hor hraise
      rw [hst] at this
      exact this
    have htl : ∀ p ∈ t, ConvertToWebp.pathEligible skip_folders p = true
        ∧ fsPresent fs1 p = true ∧ fsMtime fs1 p ≤ T := by
      intro p hp
      have hpe := hl p (List.mem_cons_of_mem p0 hp)
      rcases hev1 p with h | h | h
      · exact ⟨hpe.1, by rw [fsPresent_congr fs fs1 p h]; exact hpe.2.1,
          by rw [fsMtime_congr fs fs1 p h]; exact hpe.2.2⟩
      · exfalso
        have h1 := h.1
        rw [hpe.1] at h1
        exact absurd h1 (by decide)
      · exfalso
        have hq : p = p0 := by simpa using h.2.2
        subst hq
        exact (List.nodup_cons.mp hnd).1 hp
    have herr' : (ConvertToWebp.runFrom false del oracle (fs1, c1, log1) t).2.1.errors
        = c1.errors := by
      rw [herr, hc1]
    obtain ⟨hevt, hutdt⟩ := ih fs1 c1 log1 (List.nodup_cons.mp hnd).2 htl herr'
    refine ⟨ConvertToWebp.cw_evolved_trans skip_folders T fs fs1 _ p0 t hev1 hevt, ?_⟩
    intro p hp hpres
    rcases List.mem_cons.mp hp with hpeq | hpt
    · subst hpeq
      by_cases hpr1 : fsPresent fs1 p = true
      · have hu1 : ConvertToWebp.is_up_to_date fs1 p (ConvertToWebp.dstPath p) = true := by
          have := ConvertToWebp.cw_step_utd del oracle skip_folders T fs c log p hp0.1 Hor
            hp0.2.2 hraise (by rw [hst]; exact hpr1)
          rw [hst] at this
          exact this
        have hm1 : fsMtime fs1 p ≤ T := by
          rcases hev1 p with h | h | h
          · rw [fsMtime_congr fs fs1 p h]
            exact hp0.2.2
          · exfalso
            have h1 := h.1
            rw [hp0.1] at h1
            exact absurd h1 (by decide)
          · exfalso
            rw [hpr1] at h
            exact absurd h.2.1 (by decide)
        exact ConvertToWebp.cw_utd_preserved skip_folders T fs1 _ t p hp0.1 hm1 hu1 hevt hpres
      · exfalso
        rw [Bool.not_eq_true] at hpr1
        rcases hevt p with h | h | h
        · rw [fsPresent_congr fs1 _ p h, hpr1] at hpres
          exact absurd hpres (by decide)
        · have h1 := h.1
          rw [hp0.1] at h1
          exact absurd h1 (by decide)
        · rw [hpres] at h
          exact absurd h.2.1 (by decide)
    · exact hutdt p hpt hpres

theorem ConvertToWebp.cw_runFrom_all_skip (del : Bool) (oracle : FilePath' → FileEnv) :
    ∀ (l : List FilePath') (fs : FSys) (c : ConvertToWebp.Counts) (log : List String),
      (∀ p ∈ l, (oracle p).statRaises = false
         ∧ ConvertToWebp.is_up_to_date fs p (ConvertToWebp.dstPath p) = true) →
      ConvertToWebp.runFrom false del oracle (fs, c, log) l
        = (fs, { c with skipped := c.skipped + l.length }, log) := by
  intro l
  induction l with
  | nil =>
    intro fs c log _
    simp [ConvertToWebp.runFrom]
  | cons p l ih =>
    intro fs c log h
    have hp := h p (List.mem_cons_self p l)
    have hstep : ConvertToWebp.step false del oracle (fs, c, log) p
        = (fs, { c with skipped := c.skipped + 1 }, log) := by
      simp only [ConvertToWebp.step]
      simp [hp.1, hp.2]
    rw [ConvertToWebp.cw_runFrom_cons, hstep,
      ih fs _ log (fun q hq => h q (List.mem_cons_of_mem p hq))]
    have hc : ({ c with skipped := c.skipped + 1 + l.length } : ConvertToWebp.Counts)
        = { c with skipped := c.skipped + (p :: l).length } := by
      have hn : c.skipped + 1 + l.length = c.skipped + (p :: l).length := by
        simp [List.length_cons]
        omega
      rw [hn]
    exact congrArg (fun x => (fs, x, log)) hc

theorem ConvertToWebp.cw_second_run_skips (del : Bool) (skip_folders : List String)
    (oracle1 oracle2 : FilePath' → FileEnv) (fs0 : FSys) (T : Int)
    (Hnd : (fsPaths fs0).Nodup)
    (HmT : ∀ p ∈ ConvertToWebp.traversal skip_folders fs0, fsMtime fs0 p ≤ T)
    (Hor : ∀ p i, (oracle1 p).conv = ConvResult.ok i → T ≤ i.mtime)
    (H2 : ∀ p, (oracle2 p).statRaises = false)
    (Herr : (ConvertToWebp.run false del skip_folders oracle1 fs0).2.1.errors = 0) :
    (ConvertToWebp.run false del skip_folders oracle2
        (ConvertToWebp.run false del skip_folders oracle1 fs0).1).2.1.converted = 0
    ∧ (ConvertToWebp.run false del skip_folders oracle2
        (ConvertToWebp.run false del skip_folders oracle1 fs0).1).2.1.skipped
      = (ConvertToWebp.traversal skip_folders
          (ConvertToWebp.run false del skip_folders oracle1 fs0).1).length := by
  have hndl : (ConvertToWebp.traversal skip_folders fs0).Nodup :=
    List.Nodup.filter _ Hnd
  have hl : ∀ p ∈ ConvertToWebp.traversal skip_folders fs0,
      ConvertToWebp.pathEligible skip_folders p = true
      ∧ fsPresent fs0 p = true ∧ fsMtime fs0 p ≤ T := by
    intro p hp
    have hm := List.mem_filter.mp hp
    exact ⟨hm.2, (fsPresent_iff_mem_paths fs0 p).mpr hm.1, HmT p hp⟩
  have hinv := ConvertToWebp.cw_run1_inv del oracle1 skip_folders T Hor
    (ConvertToWebp.traversal skip_folders fs0) fs0 ConvertToWebp.czero [] hndl hl Herr
  obtain ⟨hev, hutd⟩ := hinv
  have hall : ∀ p ∈ ConvertToWebp.traversal skip_folders
      (ConvertToWebp.run false del skip_folders oracle1 fs0).1,
      (oracle2 p).statRaises = false
      ∧ ConvertToWebp.is_up_to_date
          (ConvertToWebp.run false del skip_folders oracle1 fs0).1 p
          (ConvertToWebp.dstPath p) = true := by
    intro p hp
    have hm := List.mem_filter.mp hp
    have hpres : fsPresent (ConvertToWebp.run false del skip_folders oracle1 fs0).1 p = true :=
      (fsPresent_iff_mem_paths _ p).mpr hm.1
    have hp0 : p ∈ ConvertToWebp.traversal skip_folders fs0 := by
      rcases hev p with h | h | h
      · have hpres0 : fsPresent fs0 p = true := by
          rw [← fsPresent_congr fs0 _ p h]
          exact hpres
        exact List.mem_filter.mpr ⟨(fsPresent_iff_mem_paths fs0 p).mp hpres0, hm.2⟩
      · exfalso
        have h1 := h.1
        rw [hm.2] at h1
        exact absurd h1 (by decide)
      · exfalso
        have h21 : fsPresent (ConvertToWebp.run false del skip_folders oracle1 fs0).1 p
            = false := h.2.1
        rw [hpres] at h21
        exact absurd h21 (by decide)
    exact ⟨H2 p, hutd p hp0 hpres⟩
  have hrun2 := ConvertToWebp.cw_runFrom_all_skip del oracle2
    (ConvertToWebp.traversal skip_folders
      (ConvertToWebp.run false del skip_folders oracle1 fs0).1)
    (ConvertToWebp.run false del skip_folders oracle1 fs0).1 ConvertToWebp.czero [] hall
  constructor
  · show (ConvertToWebp.runFrom false del oracle2 _ _).2.1.converted = 0
    rw [hrun2]
    rfl
  · show (ConvertToWebp.runFrom false del oracle2 _ _).2.1.skipped = _
    rw [hrun2]
    simp [ConvertToWebp.czero]

theorem MakeThumbnails.mt_src_ne_dst (src : FilePath')
    (Helig : MakeThumbnails.pathEligible src = true) :
    src ≠ MakeThumbnails.thumbPath src := by
  intro he
  have hd := thumbPath_not_eligible src
  rw [← he, Helig] at hd
  exact absurd hd (by decide)

theorem MakeThumbnails.mt_evolved_id (T : Int) (fs : FSys) :
    MakeThumbnails.evolved T fs fs :=
  fun _ => Or.inl rfl

theorem MakeThumbnails.mt_evolved_trans (T : Int) (fs fs1 fs2 : FSys)
    (h1 : MakeThumbnails.evolved T fs fs1) (h2 : MakeThumbnails.evolved T fs1 fs2) :
    MakeThumbnails.evolved T fs fs2 := by
  intro q
  rcases h2 q with h | h
  · rcases h1 q with g | g
    · left
      rw [h, g]
    · right
      exact ⟨g.1, by rw [fsPresent_congr fs1 fs2 q h]; exact g.2.1,
        by rw [fsMtime_congr fs1 fs2 q h]; exact g.2.2⟩
  · right
    exact h

theorem MakeThumbnails.mt_step_evolved (oracle : FilePath' → FileEnv) (T : Int)
    (fs : FSys) (c : MakeThumbnails.Counts) (log : List String) (src : FilePath')
    (Hor : ∀ p i, (oracle p).conv = ConvResult.ok i → T ≤ i.mtime)
    (h : MakeThumbnails.raises false oracle fs src = false) :
    MakeThumbnails.evolved T fs (MakeThumbnails.step false oracle (fs, c, log) src).1 := by
  rcases MakeThumbnails.mt_step_fs_cases oracle fs c log src h with ⟨hu, hfs⟩ | ⟨i, hc, hfs⟩
  · rw [hfs]
    exact MakeThumbnails.mt_evolved_id T fs
  · have hTi : T ≤ i.mtime := Hor src i hc
    rw [hfs]
    intro q
    by_cases hq : q = MakeThumbnails.thumbPath src
    · subst hq
      right
      refine ⟨thumbPath_not_eligible src, ?_, ?_⟩
      · unfold fsPresent
        rw [fsLookup_write_self]
        rfl
      · unfold fsMtime
        rw [fsLookup_write_self]
        exact hTi
    · left
      exact fsLookup_write_ne fs (MakeThumbnails.thumbPath src) q i hq

theorem MakeThumbnails.mt_utd_preserved (T : Int) (fs fs' : FSys) (p : FilePath')
    (Helig : MakeThumbnails.pathEligible p = true)
    (HmT : fsMtime fs p ≤ T)
    (Hutd : MakeThumbnails.is_up_to_date fs p (MakeThumbnails.thumbPath p) = true)
    (Hev : MakeThumbnails.evolved T fs fs')
    (Hpres : fsPresent fs' p = true) :
    MakeThumbnails.is_up_to_date fs' p (MakeThumbnails.thumbPath p) = true := by
  have hp : fsLookup fs' p = fsLookup fs p := by
    rcases Hev p with h | h
    · exact h
    · rw [Helig] at h
      exact absurd h.1 (by decide)
  have hmp : fsMtime fs' p = fsMtime fs p := fsMtime_congr fs fs' p hp
  rcases Hev (MakeThumbnails.thumbPath p) with h | h
  · unfold MakeThumbnails.is_up_to_date at Hutd ⊢
    rw [fsPresent_congr fs fs' _ h, fsMtime_congr fs fs' _ h, hmp]
    exact Hutd
  · unfold MakeThumbnails.is_up_to_date
    rw [h.2.1, hmp]
    have hle : fsMtime fs p ≤ fsMtime fs' (MakeThumbnails.thumbPath p) := le_trans HmT h.2.2
    simpa using hle

theorem MakeThumbnails.mt_step_utd (oracle : FilePath' → FileEnv) (T : Int)
    (fs : FSys) (c : MakeThumbnails.Counts) (log : List String) (src : FilePath')
    (Helig : MakeThumbnails.pathEligible src = true)
    (Hor : ∀ p i, (oracle p).conv = ConvResult.ok i → T ≤ i.mtime)
    (HmT : fsMtime fs src ≤ T)
    (h : MakeThumbnails.raises false oracle fs src = false) :
    MakeThumbnails.is_up_to_date (MakeThumbnails.step false oracle (fs, c, log) src).1
      src (MakeThumbnails.thumbPath src) = true := by
  rcases MakeThumbnails.mt_step_fs_cases oracle fs c log src h with ⟨hu, hfs⟩ | ⟨i, hc, hfs⟩
  · rw [hfs]
    exact hu
  · have hsd := MakeThumbnails.mt_src_ne_dst src Helig
    have hTi : T ≤ i.mtime := Hor src i hc
    rw [hfs]
    unfold MakeThumbnails.is_up_to_date
    have h1 : fsPresent (fsWrite fs (MakeThumbnails.thumbPath src) i)
        (MakeThumbnails.thumbPath src) = true := by
      unfold fsPresent
      rw [fsLookup_write_self]
      rfl
    have h2 : fsMtime (fsWrite fs (MakeThumbnails.thumbPath src) i)
        (MakeThumbnails.thumbPath src) = i.mtime := by
      unfold fsMtime
      rw [fsLookup_write_self]
      rfl
    have h3 : fsMtime (fsWrite fs (MakeThumbnails.thumbPath src) i) src = fsMtime fs src := by
      unfold fsMtime
      rw [fsLookup_write_ne fs (MakeThumbnails.thumbPath src) src i hsd]
    rw [h1, h2, h3]
    have hle : fsMtime fs src ≤ i.mtime := le_trans HmT hTi
    simpa using hle

theorem MakeThumbnails.mt_runFrom_cons (ow : Bool) (oracle : FilePath' → FileEnv)
    (st : FSys × MakeThumbnails.Counts × List String) (p : FilePath') (l : List FilePath') :
    MakeThumbnails.runFrom ow oracle st (p :: l)
      = MakeThumbnails.runFrom ow oracle (MakeThumbnails.step ow oracle st p) l := rfl

theorem MakeThumbnails.mt_runFrom_errors_mono (ow : Bool) (oracle : FilePath' → FileEnv)
    (l : List FilePath') :
    ∀ st : FSys × MakeThumbnails.Counts × List String,
      st.2.1.errors ≤ (MakeThumbnails.runFrom ow oracle st l).2.1.errors := by
  induction l with
  | nil => intro st; exact Nat.le_refl _
  | cons p l ih =>
    intro st
    obtain ⟨fs, c, log⟩ := st
    rw [MakeThumbnails.mt_runFrom_cons]
    refine le_trans ?_ (ih _)
    rw [MakeThumbnails.mt_step_errors]
    exact Nat.le_add_right _ _

theorem MakeThumbnails.mt_run1_inv (oracle : FilePath' → FileEnv) (T : Int)
    (Hor : ∀ p i, (oracle p).conv = ConvResult.ok i → T ≤ i.mtime) :
    ∀ (l : List FilePath') (fs : FSys) (c : MakeThumbnails.Counts) (log : List String),
      (∀ p ∈ l, MakeThumbnails.pathEligible p = true
         ∧ fsPresent fs p = true ∧ fsMtime fs p ≤ T) →
      (MakeThumbnails.runFrom false oracle (fs, c, log) l).2.1.errors = c.errors →
      MakeThumbnails.evolved T fs (MakeThumbnails.runFrom false oracle (fs, c, log) l).1
      ∧ (∀ p ∈ l,
          fsPresent (MakeThumbnails.runFrom false oracle (fs, c, log) l).1 p = true →
          MakeThumbnails.is_up_to_date (MakeThumbnails.runFrom false oracle (fs, c, log) l).1
            p (MakeThumbnails.thumbPath p) = true) := by
  intro l
  induction l with
  | nil =>
    intro fs c log _ _
    exact ⟨MakeThumbnails.mt_evolved_id T fs, fun p hp => absurd hp (List.not_mem_nil p)⟩
  | cons p0 t ih =>
    intro fs c log hl herr
    have hstep_err := MakeThumbnails.mt_step_errors false oracle fs c log p0
    have hp0 := hl p0 (List.mem_cons_self p0 t)
    rcases hst : MakeThumbnails.step false oracle (fs, c, log) p0 with ⟨fs1, c1, log1⟩
    rw [MakeThumbnails.mt_runFrom_cons, hst] at herr ⊢
    rw [hst] at hstep_err
    have hmono := MakeThumbnails.mt_runFrom_errors_mono false oracle t (fs1, c1, log1)
    have hmono2 : c1.errors
        ≤ (MakeThumbnails.runFrom false oracle (fs1, c1, log1) t).2.1.errors := hmono
    have hstep_err2 : c1.errors
        = c.errors + (if MakeThumbnails.raises false oracle fs p0 then 1 else 0) := hstep_err
    have hraise : MakeThumbnails.raises false oracle fs p0 = false := by
      by_contra hr
      rw [Bool.not_eq_false] at hr
      rw [hr] at hstep_err2
      simp at hstep_err2
      omega
    have hc1 : c1.errors = c.errors := by
      rw [hraise] at hstep_err2
      simpa using hstep_err2
    have hev1 : MakeThumbnails.evolved T fs fs1 := by
      have := MakeThumbnails.mt_step_evolved oracle T fs c log p0 Hor hraise
      rw [hst] at this
      exact this
    have htl : ∀ p ∈ t, MakeThumbnails.pathEligible p = true
        ∧ fsPresent fs1 p = true ∧ fsMtime fs1 p ≤ T := by
      intro p hp
      have hpe := hl p (List.mem_cons_of_mem p0 hp)
      rcases hev1 p with h | h
      · exact ⟨hpe.1, by rw [fsPresent_congr fs fs1 p h]; exact hpe.2.1,
          by rw [fsMtime_congr fs fs1 p h]; exact hpe.2.2⟩
      · exfalso
        have h1 := h.1
        rw [hpe.1] at h1
        exact absurd h1 (by decide)
    have herr' : (MakeThumbnails.runFrom false oracle (fs1, c1, log1) t).2.1.errors
        = c1.errors := by
      rw [herr, hc1]
    obtain ⟨hevt, hutdt⟩ := ih fs1 c1 log1 htl herr'
    refine ⟨MakeThumbnails.mt_evolved_trans T fs fs1 _ hev1 hevt, ?_⟩
    intro p hp hpres
    rcases List.mem_cons.mp hp with hpeq | hpt
    · subst hpeq
      have hu1 : MakeThumbnails.is_up_to_date fs1 p (MakeThumbnails.thumbPath p) = true := by
        have := MakeThumbnails.mt_step_utd oracle T fs c log p hp0.1 Hor hp0.2.2 hraise
        rw [hst] at this
        exact this
      have hm1 : fsMtime fs1 p ≤ T := by
        rcases hev1 p with h | h
        · rw [fsMtime_congr fs fs1 p h]
          exact hp0.2.2
        · exfalso
          have h1 := h.1
          rw [hp0.1] at h1
          exact absurd h1 (by decide)
      exact MakeThumbnails.mt_utd_preserved T fs1 _ p hp0.1 hm1 hu1 hevt hpres
    · exact hutdt p hpt hpres

theorem MakeThumbnails.mt_runFrom_all_skip (oracle : FilePath' → FileEnv) :
    ∀ (l : List FilePath') (fs : FSys) (c : MakeThumbnails.Counts) (log : List String),
      (∀ p ∈ l, (oracle p).statRaises = false
         ∧ MakeThumbnails.is_up_to_date fs p (MakeThumbnails.thumbPath p) = true) →
      MakeThumbnails.runFrom false oracle (fs, c, log) l
        = (fs, { c with skipped := c.skipped + l.length }, log) := by
  intro l
  induction l with
  | nil =>
    intro fs c log _
    simp [MakeThumbnails.runFrom]
  | cons p l ih =>
    intro fs c log h
    have hp := h p (List.mem_cons_self p l)
    have hstep : MakeThumbnails.step false oracle (fs, c, log) p
        = (fs, { c with skipped := c.skipped + 1 }, log) := by
      simp only [MakeThumbnails.step]
      simp [hp.1, hp.2]
    rw [MakeThumbnails.mt_runFrom_cons, hstep,
      ih fs _ log (fun q hq => h q (List.mem_cons_of_mem p hq))]
    have hc : ({ c with skipped := c.skipped + 1 + l.length } : MakeThumbnails.Counts)
        = { c with skipped := c.skipped + (p :: l).length } := by
      have hn : c.skipped + 1 + l.length = c.skipped + (p :: l).length := by
        simp [List.length_cons]
        omega
      rw [hn]
    exact congrArg (fun x => (fs, x, log)) hc

theorem MakeThumbnails.mt_second_run_skips (oracle1 oracle2 : FilePath' → FileEnv)
    (fs0 : FSys) (T : Int)
    (HmT : ∀ p ∈ MakeThumbnails.traversal fs0, fsMtime fs0 p ≤ T)
    (Hor : ∀ p i, (oracle1 p).conv = ConvResult.ok i → T ≤ i.mtime)
    (H2 : ∀ p, (oracle2 p).statRaises = false)
    (Herr : (MakeThumbnails.run false oracle1 fs0).2.1.errors = 0) :
    (MakeThumbnails.run false oracle2
        (MakeThumbnails.run false oracle1 fs0).1).2.1.created = 0
    ∧ (MakeThumbnails.run false oracle2
        (MakeThumbnails.run false oracle1 fs0).1).2.1.skipped
      = (MakeThumbnails.traversal (MakeThumbnails.run false oracle1 fs0).1).length := by
  have hl : ∀ p ∈ MakeThumbnails.traversal fs0,
      MakeThumbnails.pathEligible p = true
      ∧ fsPresent fs0 p = true ∧ fsMtime fs0 p ≤ T := by
    intro p hp
    have hm := List.mem_filter.mp hp
    exact ⟨hm.2, (fsPresent_iff_mem_paths fs0 p).mpr hm.1, HmT p hp⟩
  obtain ⟨hev, hutd⟩ := MakeThumbnails.mt_run1_inv oracle1 T Hor
    (MakeThumbnails.traversal fs0) fs0 MakeThumbnails.czero [] hl Herr
  have hall : ∀ p ∈ MakeThumbnails.traversal (MakeThumbnails.run false oracle1 fs0).1,
      (oracle2 p).statRaises = false
      ∧ MakeThumbnails.is_up_to_date (MakeThumbnails.run false oracle1 fs0).1 p
          (MakeThumbnails.thumbPath p) = true := by
    intro p hp
    have hm := List.mem_filter.mp hp
    have hpres : fsPresent (MakeThumbnails.run false oracle1 fs0).1 p = true :=
      (fsPresent_iff_mem_paths _ p).mpr hm.1
    have hp0 : p ∈ MakeThumbnails.traversal fs0 := by
      rcases hev p with h | h
      · have hpres0 : fsPresent fs0 p = true := by
          rw [← fsPresent_congr fs0 _ p h]
          exact hpres
        exact List.mem_filter.mpr ⟨(fsPresent_iff_mem_paths fs0 p).mp hpres0, hm.2⟩
      · exfalso
        have h1 := h.1
        rw [hm.2] at h1
        exact absurd h1 (by decide)
    exact ⟨H2 p, hutd p hp0 hpres⟩
  have hrun2 := MakeThumbnails.mt_runFrom_all_skip oracle2
    (MakeThumbnails.traversal (MakeThumbnails.run false oracle1 fs0).1)
    (MakeThumbnails.run false oracle1 fs0).1 MakeThumbnails.czero [] hall
  constructor
  · show (MakeThumbnails.runFrom false oracle2 _ _).2.1.created = 0
    rw [hrun2]
    rfl
  · show (MakeThumbnails.runFrom false oracle2 _ _).2.1.skipped = _
    rw [hrun2]
    simp [MakeThumbnails.czero]

theorem fsPresent_write_mono (fs : FSys) (q : FilePath') (x : FInfo) (p : FilePath')
    (h : fsPresent fs p = true) : fsPresent (fsWrite fs q x) p = true := by
  by_cases hpq : p = q
  · subst hpq
    unfold fsPresent
    rw [fsLookup_write_self]
    rfl
  · unfold fsPresent at h ⊢
    rw [fsLookup_write_ne fs q p x hpq]
    exact h

theorem ConvertToWebp.step_deleted (ow del : Bool) (oracle : FilePath' → FileEnv)
    (fs : FSys) (c : ConvertToWebp.Counts) (log : List String) (src : FilePath') :
    ((ConvertToWebp.step ow del oracle (fs, c, log) src).2.1).deleted
      = c.deleted + (if ConvertToWebp.deletes ow del oracle fs src then 1 else 0) := by
  rcases hc : (oracle src).conv with written | w
  · simp only [ConvertToWebp.step, ConvertToWebp.deletes, hc]
    split_ifs <;> simp_all
  · simp only [ConvertToWebp.step, ConvertToWebp.deletes, hc]
    split_ifs <;> simp_all

theorem ConvertToWebp.step_deletes_fs (ow del : Bool) (oracle : FilePath' → FileEnv)
    (fs : FSys) (c : ConvertToWebp.Counts) (log : List String) (src : FilePath')
    (h : ConvertToWebp.deletes ow del oracle fs src = true) :
    ∃ i, (oracle src).conv = ConvResult.ok i
      ∧ (ConvertToWebp.step ow del oracle (fs, c, log) src).1
          = fsUnlink (fsWrite fs (ConvertToWebp.dstPath src) i) src
      ∧ 0 < fsSize (fsWrite fs (ConvertToWebp.dstPath src) i) (ConvertToWebp.dstPath src) := by
  rcases hc : (oracle src).conv with i | w
  · refine ⟨i, rfl, ?_⟩
    simp only [ConvertToWebp.step, ConvertToWebp.deletes, hc] at h ⊢
    split_ifs at h ⊢ <;> simp_all
  · exfalso
    simp only [ConvertToWebp.deletes, hc] at h
    split_ifs at h <;> simp_all

theorem ConvertToWebp.step_fail_effects (ow del : Bool) (oracle : FilePath' → FileEnv)
    (fs : FSys) (c : ConvertToWebp.Counts) (log : List String) (src : FilePath')
    (w : Option FInfo) (hc : (oracle src).conv = ConvResult.fail w) :
    ((ConvertToWebp.step ow del oracle (fs, c, log) src).2.1).deleted = c.deleted
    ∧ (fsPresent fs src = true →
        fsPresent (ConvertToWebp.step ow del oracle (fs, c, log) src).1 src = true) := by
  constructor
  · rw [ConvertToWebp.step_deleted]
    have hd : ConvertToWebp.deletes ow del oracle fs src = false := by
      simp only [ConvertToWebp.deletes, hc]
      split_ifs <;> rfl
    rw [hd]
    simp
  · intro hpres
    simp only [ConvertToWebp.step, hc]
    split_ifs <;> try exact hpres
    rcases w with _ | i
    · exact hpres
    · exact fsPresent_write_mono fs (ConvertToWebp.dstPath src) i src hpres

/-- C1: in convert-to-webp with `--delete-originals`, for every processed
source file the original is deleted only when the conversion completed
without exception and the destination exists with size greater than zero
(the source is then gone); if the transform raises, the deleted counter is
unchanged and the source file remains on disk. -/
theorem claim_C1_delete_gated_on_verified_output
    (overwrite : Bool) (oracle : FilePath' → FileEnv) (fs : FSys)
    (c : ConvertToWebp.Counts) (log : List String) (src : FilePath') :
    (((ConvertToWebp.step overwrite true oracle (fs, c, log) src).2.1).deleted
        = c.deleted + 1 →
      ∃ i, (oracle src).conv = ConvResult.ok i
        ∧ fsPresent (fsWrite fs (ConvertToWebp.dstPath src) i)
            (ConvertToWebp.dstPath src) = true
        ∧ 0 < fsSize (fsWrite fs (ConvertToWebp.dstPath src) i)
            (ConvertToWebp.dstPath src)
        ∧ fsPresent (ConvertToWebp.step overwrite true oracle (fs, c, log) src).1 src
            = false)
    ∧ (∀ w, (oracle src).conv = ConvResult.fail w →
        ((ConvertToWebp.step overwrite true oracle (fs, c, log) src).2.1).deleted = c.deleted
        ∧ (fsPresent fs src = true →
            fsPresent (ConvertToWebp.step overwrite true oracle (fs, c, log) src).1 src
              = true)) := by
  constructor
  · intro hdel
    have hchar := ConvertToWebp.step_deleted overwrite true oracle fs c log src
    rw [hdel] at hchar
    have hdc : ConvertToWebp.deletes overwrite true oracle fs src = true := by
      by_contra hd
      rw [Bool.not_eq_true] at hd
      rw [hd] at hchar
      simp at hchar
    obtain ⟨i, hci, hfs, hsz⟩ :=
      ConvertToWebp.step_deletes_fs overwrite true oracle fs c log src hdc
    refine ⟨i, hci, ?_, hsz, ?_⟩
    · unfold fsPresent
      rw [fsLookup_write_self]
      rfl
    · rw [hfs]
      unfold fsPresent
      rw [fsLookup_unlink_self]
      rfl
  · intro w hc
    exact ConvertToWebp.step_fail_effects overwrite true oracle fs c log src w hc

/-- Witness for C1 at concrete inputs: a successful conversion of
`r/a.jpg` with `--delete-originals` removes the original, and a failing
transform leaves the deleted counter at zero. -/
theorem claim_C1_witness :
    fsPresent (ConvertToWebp.step false true
        (fun _ => ⟨false, ConvResult.ok ⟨10, 5⟩, false⟩)
        ([(["r", "a.jpg"], ⟨0, 3⟩)], ConvertToWebp.czero, []) ["r", "a.jpg"]).1
      ["r", "a.jpg"] = false
    ∧ ((ConvertToWebp.step false true
        (fun _ => ⟨false, ConvResult.fail none, false⟩)
        ([(["r", "a.jpg"], ⟨0, 3⟩)], ConvertToWebp.czero, []) ["r", "a.jpg"]).2.1).deleted
      = ConvertToWebp.czero.deleted := by
  constructor
  · obtain ⟨i, h1, h2, h3, h4⟩ :=
      (claim_C1_delete_gated_on_verified_output false
        (fun _ => ⟨false, ConvResult.ok ⟨10, 5⟩, false⟩)
        [(["r", "a.jpg"], ⟨0, 3⟩)] ConvertToWebp.czero [] ["r", "a.jpg"]).1 (by decide)
    exact h4
  · exact ((claim_C1_delete_gated_on_verified_output false
      (fun _ => ⟨false, ConvResult.fail none, false⟩)
      [(["r", "a.jpg"], ⟨0, 3⟩)] ConvertToWebp.czero [] ["r", "a.jpg"]).2 none rfl).1

/-- C10: in convert-to-webp with `--delete-originals`, a file whose
destination is up to date (and `--overwrite` absent, metadata readable) is
counted as skipped and the whole state is otherwise untouched, so its
original stays on disk and the deleted counter does not move. -/
theorem claim_C10_up_to_date_skip_keeps_original
    (oracle : FilePath' → FileEnv) (fs : FSys) (c : ConvertToWebp.Counts)
    (log : List String) (src : FilePath')
    (h1 : (oracle src).statRaises = false)
    (h2 : ConvertToWebp.is_up_to_date fs src (ConvertToWebp.dstPath src) = true) :
    ConvertToWebp.step false true oracle (fs, c, log) src
      = (fs, { c with skipped := c.skipped + 1 }, log) := by
  simp only [ConvertToWebp.step]
  simp [h1, h2]

/-- Witness for C10: with `r/a.webp` newer than `r/a.jpg`, the step skips
and leaves the filesystem untouched. -/
theorem claim_C10_witness :
    ConvertToWebp.step false true (fun _ => ⟨false, ConvResult.fail none, true⟩)
        ([(["r", "a.jpg"], ⟨0, 3⟩), (["r", "a.webp"], ⟨5, 9⟩)], ConvertToWebp.czero, [])
        ["r", "a.jpg"]
      = ([(["r", "a.jpg"], ⟨0, 3⟩), (["r", "a.webp"], ⟨5, 9⟩)],
          { ConvertToWebp.czero with skipped := ConvertToWebp.czero.skipped + 1 }, []) :=
  claim_C10_up_to_date_skip_keeps_original _ _ _ _ _ rfl (by decide)

/-- C3: in both pipelines the staleness check succeeds iff the destination
exists and its modification time is at least the source's; with
`--overwrite` the check is bypassed, the skipped counter never moves and the
file is rebuilt (the transform is attempted, so converted/created or errors
strictly grows). -/
theorem claim_C3_staleness_policy :
    (∀ (fs : FSys) (src dst : FilePath'),
        ConvertToWebp.is_up_to_date fs src dst = true
          ↔ fsPresent fs dst = true ∧ fsMtime fs src ≤ fsMtime fs dst)
    ∧ (∀ (fs : FSys) (src dst : FilePath'),
        MakeThumbnails.is_up_to_date fs src dst = true
          ↔ fsPresent fs dst = true ∧ fsMtime fs src ≤ fsMtime fs dst)
    ∧ (∀ (del : Bool) (oracle : FilePath' → FileEnv) (fs : FSys)
        (c : ConvertToWebp.Counts) (log : List String) (src : FilePath'),
        ((ConvertToWebp.step true del oracle (fs, c, log) src).2.1).skipped = c.skipped
        ∧ c.converted + c.errors
            < ((ConvertToWebp.step true del oracle (fs, c, log) src).2.1).converted
              + ((ConvertToWebp.step true del oracle (fs, c, log) src).2.1).errors)
    ∧ (∀ (oracle : FilePath' → FileEnv) (fs : FSys)
        (c : MakeThumbnails.Counts) (log : List String) (src : FilePath'),
        ((MakeThumbnails.step true oracle (fs, c, log) src).2.1).skipped = c.skipped
        ∧ c.created + c.errors
            < ((MakeThumbnails.step true oracle (fs, c, log) src).2.1).created
              + ((MakeThumbnails.step true oracle (fs, c, log) src).2.1).errors) := by
  refine ⟨?_, ?_, ?_, ?_⟩
  · intro fs src dst
    simp [ConvertToWebp.is_up_to_date]
  · intro fs src dst
    simp [MakeThumbnails.is_up_to_date]
  · intro del oracle fs c log src
    rcases hc : (oracle src).conv with i | w
    · simp only [ConvertToWebp.step, hc]
      split_ifs <;> constructor <;> simp_all <;> omega
    · simp only [ConvertToWebp.step, hc]
      split_ifs <;> constructor <;> simp_all <;> omega
  · intro oracle fs c log src
    rcases hc : (oracle src).conv with i | w
    · simp only [MakeThumbnails.step, hc]
      split_ifs <;> constructor <;> simp_all <;> omega
    · simp only [MakeThumbnails.step, hc]
      split_ifs <;> constructor <;> simp_all <;> omega

/-- Witness for C3 at concrete inputs: with `--overwrite` set and an
up-to-date `r/a.webp` present, the step still does not count a skip and
attempts the rebuild. -/
theorem claim_C3_witness :
    ((ConvertToWebp.step true false (fun _ => ⟨false, ConvResult.ok ⟨9, 1⟩, false⟩)
        ([(["r", "a.jpg"], ⟨0, 3⟩), (["r", "a.webp"], ⟨5, 9⟩)], ConvertToWebp.czero, [])
        ["r", "a.jpg"]).2.1).skipped = ConvertToWebp.czero.skipped
    ∧ ConvertToWebp.czero.converted + ConvertToWebp.czero.errors
        < ((ConvertToWebp.step true false (fun _ => ⟨false, ConvResult.ok ⟨9, 1⟩, false⟩)
            ([(["r", "a.jpg"], ⟨0, 3⟩), (["r", "a.webp"], ⟨5, 9⟩)], ConvertToWebp.czero, [])
            ["r", "a.jpg"]).2.1).converted
          + ((ConvertToWebp.step true false (fun _ => ⟨false, ConvResult.ok ⟨9, 1⟩, false⟩)
            ([(["r", "a.jpg"], ⟨0, 3⟩), (["r", "a.webp"], ⟨5, 9⟩)], ConvertToWebp.czero, [])
            ["r", "a.jpg"]).2.1).errors :=
  claim_C3_staleness_policy.2.2.1 false (fun _ => ⟨false, ConvResult.ok ⟨9, 1⟩, false⟩)
    [(["r", "a.jpg"], ⟨0, 3⟩), (["r", "a.webp"], ⟨5, 9⟩)] ConvertToWebp.czero []
    ["r", "a.jpg"]

/-- C9: the folder name `thumbnails` is always in the effective skip-folder
set of convert-to-webp (argparse `action="append"` keeps the list default),
so any file with a path component equal to `thumbnails` case-insensitively
is never yielded for conversion, whatever `--skip-folder` options are
given. -/
theorem claim_C9_default_skip_folder_kept (user : List String) (fs : FSys)
    (p : FilePath') :
    "thumbnails" ∈ ConvertToWebp.skipFoldersOf user
    ∧ (ConvertToWebp.is_in_folder_named p "thumbnails" = true →
        p ∉ ConvertToWebp.traversal (ConvertToWebp.skipFoldersOf user) fs) := by
  have hmem : "thumbnails" ∈ ConvertToWebp.skipFoldersOf user := by
    unfold ConvertToWebp.skipFoldersOf ConvertToWebp.argSkipFolder
    have hl : strLower "thumbnails" = "thumbnails" := by decide
    rw [List.map_cons, hl]
    exact List.mem_cons_self _ _
  refine ⟨hmem, ?_⟩
  intro hfold hmemtrav
  have helig := (List.mem_filter.mp hmemtrav).2
  unfold ConvertToWebp.pathEligible at helig
  rw [if_pos] at helig
  · exact absurd helig (by decide)
  · exact List.any_eq_true.mpr ⟨"thumbnails", hmem, hfold⟩

/-- Witness for C9: with an extra `--skip-folder foo`, a file under
`THUMBNAILS` is still excluded. -/
theorem claim_C9_witness :
    "thumbnails" ∈ ConvertToWebp.skipFoldersOf ["foo"]
    ∧ ["x", "THUMBNAILS", "a.jpg"] ∉ ConvertToWebp.traversal
        (ConvertToWebp.skipFoldersOf ["foo"])
        [(["x", "THUMBNAILS", "a.jpg"], ⟨0, 1⟩)] :=
  ⟨(claim_C9_default_skip_folder_kept ["foo"] [] []).1,
    (claim_C9_default_skip_folder_kept ["foo"] [(["x", "THUMBNAILS", "a.jpg"], ⟨0, 1⟩)]
      ["x", "THUMBNAILS", "a.jpg"]).2 (by decide)⟩

/-- C2: in both pipelines, a per-file exception (staleness check, transform,
or delete step) increments the error counter by exactly one and prints a
line naming the offending path, and the loop is a fold that always continues
with the remaining files, so no single failure aborts the run. -/
theorem claim_C2_per_file_error_isolation :
    (∀ (ow del : Bool) (oracle : FilePath' → FileEnv) (fs : FSys)
        (c : ConvertToWebp.Counts) (log : List String) (src : FilePath'),
        ((ConvertToWebp.step ow del oracle (fs, c, log) src).2.1).errors
          = c.errors + (if ConvertToWebp.raises ow del oracle fs src then 1 else 0)
        ∧ (ConvertToWebp.raises ow del oracle fs src = true →
            errLine src ∈ (ConvertToWebp.step ow del oracle (fs, c, log) src).2.2))
    ∧ (∀ (ow del : Bool) (oracle : FilePath' → FileEnv)
        (st : FSys × ConvertToWebp.Counts × List String) (l1 l2 : List FilePath'),
        ConvertToWebp.runFrom ow del oracle st (l1 ++ l2)
          = ConvertToWebp.runFrom ow del oracle (ConvertToWebp.runFrom ow del oracle st l1) l2)
    ∧ (∀ (ow : Bool) (oracle : FilePath' → FileEnv) (fs : FSys)
        (c : MakeThumbnails.Counts) (log : List String) (src : FilePath'),
        ((MakeThumbnails.step ow oracle (fs, c, log) src).2.1).errors
          = c.errors + (if MakeThumbnails.raises ow oracle fs src then 1 else 0)
        ∧ (MakeThumbnails.raises ow oracle fs src = true →
            errLine src ∈ (MakeThumbnails.step ow oracle (fs, c, log) src).2.2))
    ∧ (∀ (ow : Bool) (oracle : FilePath' → FileEnv)
        (st : FSys × MakeThumbnails.Counts × List String) (l1 l2 : List FilePath'),
        MakeThumbnails.runFrom ow oracle st (l1 ++ l2)
          = MakeThumbnails.runFrom ow oracle (MakeThumbnails.runFrom ow oracle st l1) l2) := by
  refine ⟨?_, ?_, ?_, ?_⟩
  · intro ow del oracle fs c log src
    refine ⟨ConvertToWebp.cw_step_errors ow del oracle fs c log src, ?_⟩
    intro hr
    rw [ConvertToWebp.cw_step_log ow del oracle fs c log src, hr]
    simp
  · intro ow del oracle st l1 l2
    exact List.foldl_append _ _ l1 l2
  · intro ow oracle fs c log src
    refine ⟨MakeThumbnails.mt_step_errors ow oracle fs c log src, ?_⟩
    intro hr
    rw [MakeThumbnails.mt_step_log ow oracle fs c log src, hr]
    simp
  · intro ow oracle st l1 l2
    exact List.foldl_append _ _ l1 l2

/-- Witness for C2: a failing transform on `r/a.jpg` leaves exactly one
error counted and the path named in the output. -/
theorem claim_C2_witness :
    errLine ["r", "a.jpg"] ∈ (ConvertToWebp.step false false
        (fun _ => ⟨false, ConvResult.fail none, false⟩)
        ([(["r", "a.jpg"], ⟨0, 3⟩)], ConvertToWebp.czero, []) ["r", "a.jpg"]).2.2 :=
  (claim_C2_per_file_error_isolation.1 false false
    (fun _ => ⟨false, ConvResult.fail none, false⟩)
    [(["r", "a.jpg"], ⟨0, 3⟩)] ConvertToWebp.czero [] ["r", "a.jpg"]).2 (by decide)

/-- C7: both pipelines exit non-zero immediately (status 1, no loop run)
when the root is missing or not a directory; otherwise the run completes
and the exit status is 0 when the error counter is zero and 2 when at least
one per-file error occurred. -/
theorem claim_C7_exit_codes :
    (∀ (ow del : Bool) (user : List String) (oracle : FilePath' → FileEnv) (fs : FSys),
        ConvertToWebp.main false ow del user oracle fs = Except.error "Folder not found"
        ∧ ConvertToWebp.exitCode (ConvertToWebp.main false ow del user oracle fs) = 1
        ∧ ConvertToWebp.exitCode (ConvertToWebp.main true ow del user oracle fs)
            = (if (ConvertToWebp.run ow del (ConvertToWebp.skipFoldersOf user) oracle fs).2.1.errors
                  = 0 then 0 else 2))
    ∧ (∀ (ow : Bool) (oracle : FilePath' → FileEnv) (fs : FSys),
        MakeThumbnails.main false ow oracle fs = Except.error "Folder not found"
        ∧ MakeThumbnails.exitCode (MakeThumbnails.main false ow oracle fs) = 1
        ∧ MakeThumbnails.exitCode (MakeThumbnails.main true ow oracle fs)
            = (if (MakeThumbnails.run ow oracle fs).2.1.errors = 0 then 0 else 2)) := by
  constructor
  · intro ow del user oracle fs
    refine ⟨rfl, rfl, ?_⟩
    show ConvertToWebp.exitCode (Except.ok (ConvertToWebp.run ow del
      (ConvertToWebp.skipFoldersOf user) oracle fs)) = _
    rcases hr : ConvertToWebp.run ow del (ConvertToWebp.skipFoldersOf user) oracle fs
      with ⟨fs', c', log'⟩
    simp [ConvertToWebp.exitCode]
  · intro ow oracle fs
    refine ⟨rfl, rfl, ?_⟩
    show MakeThumbnails.exitCode (Except.ok (MakeThumbnails.run ow oracle fs)) = _
    rcases hr : MakeThumbnails.run ow oracle fs with ⟨fs', c', log'⟩
    simp [MakeThumbnails.exitCode]

/-- Counterexample to C4: `r/Thumbnails/a.jpg` has a component matching the
skip name `thumbnails` case-insensitively, yet make_thumbnails.py (whose
check `THUMB_DIR_NAME in src.parts` is case-sensitive) processes it and
creates a destination for it. -/
theorem claim_C4_counterexample :
    ConvertToWebp.is_in_folder_named ["r", "Thumbnails", "a.jpg"] "thumbnails" = true
    ∧ ["r", "Thumbnails", "a.jpg"]
        ∈ MakeThumbnails.traversal [(["r", "Thumbnails", "a.jpg"], ⟨3, 7⟩)]
    ∧ fsPresent (MakeThumbnails.run false (fun _ => ⟨false, ConvResult.ok ⟨9, 4⟩, false⟩)
          [(["r", "Thumbnails", "a.jpg"], ⟨3, 7⟩)]).1
        (MakeThumbnails.thumbPath ["r", "Thumbnails", "a.jpg"]) = true := by
  refine ⟨by decide, by decide, ?_⟩
  decide

/-- C4 as amended: in convert-to-webp any path component matching a
configured skip-folder name case-insensitively excludes the file; in
make-thumbnails only a component exactly equal to `thumbnails`
(case-sensitively) excludes the file. -/
theorem claim_C4_skip_folder_exclusion_amended (skip_folders : List String)
    (fs fsT : FSys) (p q : FilePath') :
    ((∃ name ∈ skip_folders, ConvertToWebp.is_in_folder_named p name = true) →
        p ∉ ConvertToWebp.traversal skip_folders fs)
    ∧ (MakeThumbnails.THUMB_DIR_NAME ∈ q → q ∉ MakeThumbnails.traversal fsT) := by
  constructor
  · intro hname hmem
    have helig := (List.mem_filter.mp hmem).2
    unfold ConvertToWebp.pathEligible at helig
    rw [if_pos (List.any_eq_true.mpr hname)] at helig
    exact absurd helig (by decide)
  · intro hname hmem
    have helig := (List.mem_filter.mp hmem).2
    unfold MakeThumbnails.pathEligible at helig
    by_cases hi : (!MakeThumbnails.is_image q) = true
    · rw [if_pos hi] at helig
      exact absurd helig (by decide)
    · rw [if_neg hi, if_pos (decide_eq_true hname)] at helig
      exact absurd helig (by decide)

/-- Witness for C4 as amended: `x/thumbnails/b.png` is excluded by both
pipelines. -/
theorem claim_C4_witness :
    ["x", "thumbnails", "b.png"] ∉ ConvertToWebp.traversal ["thumbnails"]
        [(["x", "thumbnails", "b.png"], ⟨0, 1⟩)]
    ∧ ["x", "thumbnails", "b.png"] ∉ MakeThumbnails.traversal
        [(["x", "thumbnails", "b.png"], ⟨0, 1⟩)] :=
  ⟨(claim_C4_skip_folder_exclusion_amended ["thumbnails"]
      [(["x", "thumbnails", "b.png"], ⟨0, 1⟩)] [] ["x", "thumbnails", "b.png"] []).1
      ⟨"thumbnails", by decide, by decide⟩,
    (claim_C4_skip_folder_exclusion_amended [] []
      [(["x", "thumbnails", "b.png"], ⟨0, 1⟩)] [] ["x", "thumbnails", "b.png"]).2
      (by decide)⟩

/-- Counterexample to C5: `.webp` is a member of make_thumbnails.py's
`IMAGE_EXTS`, and a `.webp` source outside any thumbnails folder is yielded
as a work item by its traversal. -/
theorem claim_C5_counterexample :
    ".webp" ∈ MakeThumbnails.IMAGE_EXTS
    ∧ strLower (pathExt ["r", "a.webp"]) = ".webp"
    ∧ ["r", "a.webp"] ∈ MakeThumbnails.traversal [(["r", "a.webp"], ⟨1, 2⟩)] := by
  decide

/-- C5 as amended: convert-to-webp never yields a file whose lowercased
extension is `.webp`; make-thumbnails, by contrast, accepts `.webp` as an
input extension and yields any present `.webp` file that is not inside a
`thumbnails` folder. -/
theorem claim_C5_target_format_filter_amended (skip_folders : List String)
    (fs : FSys) (p : FilePath') :
    (strLower (pathExt p) ∈ ConvertToWebp.WEBP_EXTS →
        p ∉ ConvertToWebp.traversal skip_folders fs)
    ∧ (fsPresent fs p = true → strLower (pathExt p) = ".webp" →
        MakeThumbnails.THUMB_DIR_NAME ∉ p →
        p ∈ MakeThumbnails.traversal fs) := by
  constructor
  · intro hext hmem
    have helig := (List.mem_filter.mp hmem).2
    unfold ConvertToWebp.pathEligible at helig
    by_cases hs : (skip_folders.any fun name => ConvertToWebp.is_in_folder_named p name) = true
    · rw [if_pos hs] at helig
      exact absurd helig (by decide)
    · rw [if_neg hs, if_pos (decide_eq_true hext)] at helig
      exact absurd helig (by decide)
  · intro hpres hext hnot
    refine List.mem_filter.mpr ⟨(fsPresent_iff_mem_paths fs p).mp hpres, ?_⟩
    unfold MakeThumbnails.pathEligible
    have hi : MakeThumbnails.is_image p = true := by
      unfold MakeThumbnails.is_image
      rw [hext]
      decide
    rw [if_neg (by rw [hi]; decide), if_neg (by simpa using hnot)]

/-- Witness for C5 as amended: `r/a.webp` is ignored by convert-to-webp and
processed by make-thumbnails. -/
theorem claim_C5_witness :
    ["r", "a.webp"] ∉ ConvertToWebp.traversal ["thumbnails"] [(["r", "a.webp"], ⟨1, 2⟩)]
    ∧ ["r", "a.webp"] ∈ MakeThumbnails.traversal [(["r", "a.webp"], ⟨1, 2⟩)] :=
  ⟨(claim_C5_target_format_filter_amended ["thumbnails"] [(["r", "a.webp"], ⟨1, 2⟩)]
      ["r", "a.webp"]).1 (by decide),
    (claim_C5_target_format_filter_amended [] [(["r", "a.webp"], ⟨1, 2⟩)]
      ["r", "a.webp"]).2 (by decide) (by decide) (by decide)⟩

/-- Counterexample to C6: a palette image with transparency info ends up
three-channel `RGB` under make_thumbnails.py, not the four-channel `RGBA`
the specification promises for both transforms. -/
theorem claim_C6_counterexample :
    (MakeThumbnails.make_thumbnail_mode ⟨"P", true⟩).mode = "RGB"
    ∧ specNormalizedMode "P" true = "RGBA"
    ∧ ("RGB" : String) ≠ "RGBA" := by
  decide

/-- C6 as amended: both transforms leave `RGB`/`RGBA` images alone and end
with three- or four-channel colour; convert-to-webp sends any other mode to
`RGBA` exactly when transparency info is present and to `RGB` otherwise,
while make-thumbnails sends every other mode to `RGB` unconditionally, even
when transparency is present. -/
theorem claim_C6_mode_normalization_amended (imC : ConvertToWebp.PILImage)
    (imT : MakeThumbnails.PILImage) :
    ((ConvertToWebp.convert_one_mode imC).mode
        = if imC.mode = "RGB" ∨ imC.mode = "RGBA" then imC.mode
          else if imC.transparency then "RGBA" else "RGB")
    ∧ ((MakeThumbnails.make_thumbnail_mode imT).mode
        = if imT.mode = "RGB" ∨ imT.mode = "RGBA" then imT.mode else "RGB")
    ∧ ((ConvertToWebp.convert_one_mode imC).mode = "RGB"
        ∨ (ConvertToWebp.convert_one_mode imC).mode = "RGBA")
    ∧ ((MakeThumbnails.make_thumbnail_mode imT).mode = "RGB"
        ∨ (MakeThumbnails.make_thumbnail_mode imT).mode = "RGBA") := by
  refine ⟨?_, ?_, ?_, ?_⟩
  · unfold ConvertToWebp.convert_one_mode
    split_ifs <;> simp_all
  · unfold MakeThumbnails.make_thumbnail_mode
    split_ifs <;> simp_all
  · unfold ConvertToWebp.convert_one_mode
    split_ifs <;> simp_all
  · unfold MakeThumbnails.make_thumbnail_mode
    split_ifs <;> simp_all

/-- C8: run twice with identical arguments (no `--overwrite`), sources
unchanged and the first run error-free — under the model's environment
assumptions (distinct paths on disk, outputs written with timestamps no
older than any candidate source, metadata readable during the second run) —
the second run of either pipeline reports 0 converted/created files and a
skipped count equal to the number of eligible files it traverses. -/
theorem claim_C8_second_run_idempotent
    (del : Bool) (skip_folders : List String) (o1 o2 t1 t2 : FilePath' → FileEnv)
    (fs0 fsT0 : FSys) (T TT : Int)
    (Hnd : (fsPaths fs0).Nodup)
    (HmT : ∀ p ∈ ConvertToWebp.traversal skip_folders fs0, fsMtime fs0 p ≤ T)
    (Hor : ∀ p i, (o1 p).conv = ConvResult.ok i → T ≤ i.mtime)
    (H2 : ∀ p, (o2 p).statRaises = false)
    (Herr : (ConvertToWebp.run false del skip_folders o1 fs0).2.1.errors = 0)
    (HmTT : ∀ p ∈ MakeThumbnails.traversal fsT0, fsMtime fsT0 p ≤ TT)
    (HorT : ∀ p i, (t1 p).conv = ConvResult.ok i → TT ≤ i.mtime)
    (H2T : ∀ p, (t2 p).statRaises = false)
    (HerrT : (MakeThumbnails.run false t1 fsT0).2.1.errors = 0) :
    ((ConvertToWebp.run false del skip_folders o2
        (ConvertToWebp.run false del skip_folders o1 fs0).1).2.1.converted = 0
      ∧ (ConvertToWebp.run false del skip_folders o2
          (ConvertToWebp.run false del skip_folders o1 fs0).1).2.1.skipped
        = (ConvertToWebp.traversal skip_folders
            (ConvertToWebp.run false del skip_folders o1 fs0).1).length)
    ∧ ((MakeThumbnails.run false t2 (MakeThumbnails.run false t1 fsT0).1).2.1.created = 0
      ∧ (MakeThumbnails.run false t2 (MakeThumbnails.run false t1 fsT0).1).2.1.skipped
        = (MakeThumbnails.traversal (MakeThumbnails.run false t1 fsT0).1).length) :=
  ⟨ConvertToWebp.cw_second_run_skips del skip_folders o1 o2 fs0 T Hnd HmT Hor H2 Herr,
    MakeThumbnails.mt_second_run_skips t1 t2 fsT0 TT HmTT HorT H2T HerrT⟩

/-- Witness for C8 at concrete inputs: one `r/a.jpg` tree for convert-to-webp
and one `r/b.jpg` tree for make-thumbnails, converted on the first run,
fully skipped on the second. -/
theorem claim_C8_witness :
    ((ConvertToWebp.run false false ["thumbnails"]
        (fun _ => ⟨false, ConvResult.ok ⟨99, 1⟩, false⟩)
        (ConvertToWebp.run false false ["thumbnails"]
          (fun _ => ⟨false, ConvResult.ok ⟨10, 50⟩, false⟩)
          [(["r", "a.jpg"], ⟨5, 100⟩)]).1).2.1.converted = 0
      ∧ (ConvertToWebp.run false false ["thumbnails"]
          (fun _ => ⟨false, ConvResult.ok ⟨99, 1⟩, false⟩)
          (ConvertToWebp.run false false ["thumbnails"]
            (fun _ => ⟨false, ConvResult.ok ⟨10, 50⟩, false⟩)
            [(["r", "a.jpg"], ⟨5, 100⟩)]).1).2.1.skipped
        = (ConvertToWebp.traversal ["thumbnails"]
            (ConvertToWebp.run false false ["thumbnails"]
              (fun _ => ⟨false, ConvResult.ok ⟨10, 50⟩, false⟩)
              [(["r", "a.jpg"], ⟨5, 100⟩)]).1).length)
    ∧ ((MakeThumbnails.run false (fun _ => ⟨false, ConvResult.ok ⟨8, 2⟩, false⟩)
          (MakeThumbnails.run false (fun _ => ⟨false, ConvResult.ok ⟨9, 4⟩, false⟩)
            [(["r", "b.jpg"], ⟨3, 7⟩)]).1).2.1.created = 0
      ∧ (MakeThumbnails.run false (fun _ => ⟨false, ConvResult.ok ⟨8, 2⟩, false⟩)
          (MakeThumbnails.run false (fun _ => ⟨false, ConvResult.ok ⟨9, 4⟩, false⟩)
            [(["r", "b.jpg"], ⟨3, 7⟩)]).1).2.1.skipped
        = (MakeThumbnails.traversal
            (MakeThumbnails.run false (fun _ => ⟨false, ConvResult.ok ⟨9, 4⟩, false⟩)
              [(["r", "b.jpg"], ⟨3, 7⟩)]).1).length) :=
  claim_C8_second_run_idempotent false ["thumbnails"]
    (fun _ => ⟨false, ConvResult.ok ⟨10, 50⟩, false⟩)
    (fun _ => ⟨false, ConvResult.ok ⟨99, 1⟩, false⟩)
    (fun _ => ⟨false, ConvResult.ok ⟨9, 4⟩, false⟩)
    (fun _ => ⟨false, ConvResult.ok ⟨8, 2⟩, false⟩)
    [(["r", "a.jpg"], ⟨5, 100⟩)] [(["r", "b.jpg"], ⟨3, 7⟩)] 5 3
    (by decide) (by decide)
    (by intro p i h; cases h; decide)
    (fun _ => rfl)
    (by decide)
    (by decide)
    (by intro p i h; cases h; decide)
    (fun _ => rfl)
    (by decide)
